import Mathlib

/-!
Verification development for `plugins/convert/masked.py` of the faceswap
converter: a shallow embedding of the mask / color-correction / compositing
pipeline, with theorems settling the specification claims.

Modelling conventions:
* float32 values are modelled exactly as rationals extended with the IEEE
  specials `nan`, `inf`, `ninf`; arithmetic on the specials follows IEEE 754
  (signed zero is not modelled; it is irrelevant to every routine embedded
  here, where all divisors that can vanish are sums of nonnegative masks).
* numpy arrays are nested lists (`Image` is rows of columns of channel
  lists); elementwise numpy operations become nested `zipWith`/`map`.
* external library routines (cv2 warps/filters/resize/seamlessClone, the
  encoder network) are opaque function parameters: the embedding keeps
  exactly the arithmetic and control flow that lives in the source file.
* fallible numpy calls (`np.min` on an empty array, the faulty
  `np.concatenate` invocation) are modelled in `Except String`.
-/

namespace Faceswap

/-- A float32 value: an exact rational, or one of the IEEE specials. -/
inductive F where
  | nan : F
  | inf : F
  | ninf : F
  | fin : ℚ → F
deriving DecidableEq, Repr

/-- The value is finite (not NaN/±Inf). -/
def IsFin : F → Prop
  | F.fin _ => True
  | _ => False

instance : DecidablePred IsFin := by
  intro x
  cases x <;> simp [IsFin] <;> infer_instance

/-- IEEE negation. -/
def negF : F → F
  | F.nan => F.nan
  | F.inf => F.ninf
  | F.ninf => F.inf
  | F.fin q => F.fin (-q)

/-- IEEE addition (signed zero ignored). -/
def addF : F → F → F
  | F.nan, _ => F.nan
  | _, F.nan => F.nan
  | F.inf, F.ninf => F.nan
  | F.ninf, F.inf => F.nan
  | F.inf, _ => F.inf
  | _, F.inf => F.inf
  | F.ninf, _ => F.ninf
  | _, F.ninf => F.ninf
  | F.fin a, F.fin b => F.fin (a + b)

/-- IEEE subtraction. -/
def subF (a b : F) : F := addF a (negF b)

/-- IEEE multiplication. -/
def mulF : F → F → F
  | F.nan, _ => F.nan
  | _, F.nan => F.nan
  | F.inf, F.inf => F.inf
  | F.inf, F.ninf => F.ninf
  | F.ninf, F.inf => F.ninf
  | F.ninf, F.ninf => F.inf
  | F.inf, F.fin b => if b = 0 then F.nan else if 0 < b then F.inf else F.ninf
  | F.fin a, F.inf => if a = 0 then F.nan else if 0 < a then F.inf else F.ninf
  | F.ninf, F.fin b => if b = 0 then F.nan else if 0 < b then F.ninf else F.inf
  | F.fin a, F.ninf => if a = 0 then F.nan else if 0 < a then F.ninf else F.inf
  | F.fin a, F.fin b => F.fin (a * b)

/-- IEEE division (a zero divisor is treated as +0, which is what the
numpy reductions of a nonnegative mask produce). -/
def divF : F → F → F
  | F.nan, _ => F.nan
  | _, F.nan => F.nan
  | F.inf, F.inf => F.nan
  | F.inf, F.ninf => F.nan
  | F.ninf, F.inf => F.nan
  | F.ninf, F.ninf => F.nan
  | F.inf, F.fin b => if 0 ≤ b then F.inf else F.ninf
  | F.ninf, F.fin b => if 0 ≤ b then F.ninf else F.inf
  | F.fin _, F.inf => F.fin 0
  | F.fin _, F.ninf => F.fin 0
  | F.fin a, F.fin b =>
      if b = 0 then (if a = 0 then F.nan else if 0 < a then F.inf else F.ninf)
      else F.fin (a / b)

/-- `np.sum` of a float array (exact on our rational model). -/
def sumF (l : List F) : F := l.foldl addF (F.fin 0)

/-- Rational minimum, as an executable conditional (`np.minimum`). -/
def qmin (a b : ℚ) : ℚ := if a ≤ b then a else b

/-- Rational maximum, as an executable conditional (`np.maximum`). -/
def qmax (a b : ℚ) : ℚ := if a ≤ b then b else a

theorem qmin_eq_min (a b : ℚ) : qmin a b = min a b := by rw [min_def, qmin]

theorem qmax_eq_max (a b : ℚ) : qmax a b = max a b := by rw [max_def, qmax]

/-- `np.clip(·, lo, hi)`: NaN propagates, ±Inf saturate, finite values clamp. -/
def clipF (lo hi : ℚ) : F → F
  | F.nan => F.nan
  | F.inf => F.fin hi
  | F.ninf => F.fin lo
  | F.fin q => F.fin (qmax lo (qmin hi q))

/-- `np.rint` on an exact rational: round half to even. -/
def rintQ (q : ℚ) : ℤ :=
  let f := ⌊q⌋
  if q - f < 1 / 2 then f
  else if 1 / 2 < q - f then f + 1
  else if f % 2 = 0 then f else f + 1

/-- `np.rint` on a float value. -/
def rintF : F → F
  | F.nan => F.nan
  | F.inf => F.inf
  | F.ninf => F.ninf
  | F.fin q => F.fin (rintQ q)

/-- Largest finite float32 (`2^128 - 2^104`), the value `np.nan_to_num`
substitutes for `+inf` in a float32 array. -/
def float32_max : ℚ := 340282346638528859811704183484516925440

/-- `np.nan_to_num` on a float32 array: NaN becomes 0, ±Inf become the
extreme finite float32 values. -/
def nanToNum : F → F
  | F.nan => F.fin 0
  | F.inf => F.fin float32_max
  | F.ninf => F.fin (-float32_max)
  | F.fin q => F.fin q

/-- `Mask.finalize_mask`: `np.nan_to_num(mask)` then `np.clip(mask, 0.0, 1.0)`
(source lines 375-381), elementwise over the mask buffer. -/
def finalize_mask (mask : List F) : List F :=
  mask.map (fun v => clipF 0 1 (nanToNum v))

/-! ### Basic facts about the float model -/

theorem addF_nan_right (x : F) : addF x F.nan = F.nan := by
  cases x <;> rfl

theorem addF_nan_left (y : F) : addF F.nan y = F.nan := by
  cases y <;> rfl

theorem addF_zero_right (x : F) : addF x (F.fin 0) = x := by
  cases x <;> simp [addF]

theorem addF_zero_left (y : F) : addF (F.fin 0) y = y := by
  cases y <;> simp [addF]

theorem mulF_nan_left (y : F) : mulF F.nan y = F.nan := by
  cases y <;> rfl

theorem mulF_nan_right (x : F) : mulF x F.nan = F.nan := by
  cases x <;> rfl

theorem mulF_one_right (x : F) : mulF x (F.fin 1) = x := by
  cases x <;> simp [mulF]

theorem mulF_fin_zero_right (q : ℚ) : mulF (F.fin q) (F.fin 0) = F.fin 0 := by
  simp [mulF]

theorem mulF_zero_right_of_fin {x : F} (h : IsFin x) : mulF x (F.fin 0) = F.fin 0 := by
  cases x <;> simp [IsFin] at h ⊢ <;> simp [mulF]

theorem subF_fin (a b : ℚ) : subF (F.fin a) (F.fin b) = F.fin (a - b) := by
  simp [subF, negF, addF]
  ring

theorem subF_fin_of_fin {x y : F} (hx : IsFin x) (hy : IsFin y) : IsFin (subF x y) := by
  cases x <;> cases y <;> simp [IsFin] at hx hy ⊢ <;> simp [subF, negF, addF, IsFin]

theorem subF_nan_right (x : F) : subF x F.nan = F.nan := by
  cases x <;> rfl

theorem divF_zero_zero : divF (F.fin 0) (F.fin 0) = F.nan := by
  simp [divF]

theorem divF_nan_left (y : F) : divF F.nan y = F.nan := by
  cases y <;> rfl

theorem clipF_nan (lo hi : ℚ) : clipF lo hi F.nan = F.nan := rfl

theorem clipF_of_fin {lo hi : ℚ} {x : F} (h : IsFin x) : IsFin (clipF lo hi x) := by
  cases x <;> simp [IsFin] at h ⊢ <;> simp [clipF, IsFin]

theorem rintF_nan : rintF F.nan = F.nan := rfl

theorem clipF_fin (lo hi q : ℚ) : clipF lo hi (F.fin q) = F.fin (max lo (min hi q)) := by
  rw [clipF, qmax_eq_max, qmin_eq_min]

theorem sumF_eq_of_all_zero {l : List F} (h : ∀ x ∈ l, x = F.fin 0) :
    sumF l = F.fin 0 := by
  have key : ∀ (t : List F), (∀ x ∈ t, x = F.fin 0) → ∀ acc, t.foldl addF acc = acc := by
    intro t
    induction t with
    | nil => intro _ acc; rfl
    | cons y ys ih =>
        intro hy acc
        have h0 : y = F.fin 0 := hy y (List.mem_cons_self y ys)
        simp only [List.foldl_cons, h0, addF_zero_right]
        exact ih (fun x hx => hy x (List.mem_cons_of_mem _ hx)) acc
  exact key l h (F.fin 0)

theorem foldl_addF_nan (t : List F) : t.foldl addF F.nan = F.nan := by
  induction t with
  | nil => rfl
  | cons y ys ih => simp only [List.foldl_cons, addF_nan_left]; exact ih

theorem sumF_eq_nan_of_all_nan {l : List F} (hne : l ≠ []) (h : ∀ x ∈ l, x = F.nan) :
    sumF l = F.nan := by
  cases l with
  | nil => exact absurd rfl hne
  | cons y ys =>
      have h0 : y = F.nan := h y (List.mem_cons_self y ys)
      simp only [sumF, List.foldl_cons, h0, addF_nan_right]
      exact foldl_addF_nan ys

/-! ### Generic list lemmas used throughout -/

theorem getD_of_lt {α : Type} (l : List α) {i : ℕ} (h : i < l.length) (d : α) :
    l.getD i d = l.get ⟨i, h⟩ := by
  simp [List.getD_eq_getElem?_getD, List.getElem?_eq_getElem h]

theorem getD_mem {α : Type} {l : List α} {i : ℕ} (h : i < l.length) (d : α) :
    l.getD i d ∈ l := by
  rw [getD_of_lt l h d]
  exact List.get_mem l i h

theorem zipWith_getD {α β γ : Type} (f : α → β → γ) {a : List α} {b : List β} {i : ℕ}
    (ha : i < a.length) (hb : i < b.length) (da : α) (db : β) (dc : γ) :
    (List.zipWith f a b).getD i dc = f (a.getD i da) (b.getD i db) := by
  simp [List.getD_eq_getElem?_getD, List.getElem?_zipWith,
        List.getElem?_eq_getElem ha, List.getElem?_eq_getElem hb]

theorem map_getD {α β : Type} (f : α → β) {l : List α} {i : ℕ} (h : i < l.length)
    (da : α) (db : β) : (l.map f).getD i db = f (l.getD i da) := by
  simp [List.getD_eq_getElem?_getD, List.getElem?_map, List.getElem?_eq_getElem h]

theorem range_map_getD {α : Type} (f : ℕ → α) {n i : ℕ} (h : i < n) (d : α) :
    ((List.range n).map f).getD i d = f i := by
  have hl : i < (List.range n).length := by simpa using h
  rw [map_getD f hl 0 d]
  simp [List.getD_eq_getElem?_getD, List.getElem?_range h]

theorem exists_of_mem_zipWith {α β γ : Type} {f : α → β → γ} :
    ∀ {a : List α} {b : List β} {z : γ}, z ∈ List.zipWith f a b →
      ∃ x, x ∈ a ∧ ∃ y, y ∈ b ∧ z = f x y := by
  intro a
  induction a with
  | nil => intro b z hz; simp at hz
  | cons x xs ih =>
      intro b z hz
      cases b with
      | nil => simp at hz
      | cons y ys =>
          simp only [List.zipWith_cons_cons, List.mem_cons] at hz
          rcases hz with h | h
          · exact ⟨x, List.mem_cons_self _ _, y, List.mem_cons_self _ _, h⟩
          · rcases ih h with ⟨x', hx', y', hy', hz'⟩
            exact ⟨x', List.mem_cons_of_mem _ hx', y', List.mem_cons_of_mem _ hy', hz'⟩

theorem zipWith_eq_left {α β : Type} (f : α → β → α) :
    ∀ (a : List α) (b : List β), a.length ≤ b.length →
      (∀ x ∈ a, ∀ y ∈ b, f x y = x) → List.zipWith f a b = a := by
  intro a
  induction a with
  | nil => intro b _ _; simp
  | cons x xs ih =>
      intro b hl hf
      cases b with
      | nil => simp at hl
      | cons y ys =>
          simp only [List.zipWith_cons_cons]
          congr 1
          · exact hf x (List.mem_cons_self _ _) y (List.mem_cons_self _ _)
          · exact ih ys (by simpa using hl)
              (fun x' hx' y' hy' => hf x' (List.mem_cons_of_mem _ hx') y' (List.mem_cons_of_mem _ hy'))

theorem zipWith_eq_right {α β : Type} (f : α → β → β) :
    ∀ (a : List α) (b : List β), b.length ≤ a.length →
      (∀ x ∈ a, ∀ y ∈ b, f x y = y) → List.zipWith f a b = b := by
  intro a
  induction a with
  | nil =>
      intro b hl _
      have hb : b = [] := List.eq_nil_of_length_eq_zero (Nat.le_zero.mp (by simpa using hl))
      subst hb
      rfl
  | cons x xs ih =>
      intro b hl hf
      cases b with
      | nil => simp
      | cons y ys =>
          simp only [List.zipWith_cons_cons]
          congr 1
          · exact hf x (List.mem_cons_self _ _) y (List.mem_cons_self _ _)
          · exact ih ys (by simpa using hl)
              (fun x' hx' y' hy' => hf x' (List.mem_cons_of_mem _ hx') y' (List.mem_cons_of_mem _ hy'))

/-! ### Images: numpy `(H, W, C)` float arrays as nested lists -/

/-- An image: rows of columns of channel values, mirroring a numpy
`(H, W, C)` float32 array. -/
abbrev Image := List (List (List F))

/-- Elementwise unary numpy operation. -/
def mapImg (g : F → F) (img : Image) : Image :=
  img.map (fun row => row.map (fun p => p.map g))

/-- Elementwise binary numpy operation on same-shape arrays. -/
def ewMap2 (f : F → F → F) (a b : Image) : Image :=
  List.zipWith (List.zipWith (List.zipWith f)) a b

/-- `np.clip(img, lo, hi)`. -/
def clipImg (lo hi : ℚ) (img : Image) : Image := mapImg (clipF lo hi) img

/-- `np.rint(img)`. -/
def rintImg (img : Image) : Image := mapImg rintF img

/-- The array has shape `(h, w, ch)`. -/
def Dims (img : Image) (h w ch : ℕ) : Prop :=
  img.length = h ∧ ∀ row ∈ img, row.length = w ∧ ∀ p ∈ row, p.length = ch

instance (img : Image) (h w ch : ℕ) : Decidable (Dims img h w ch) := by
  unfold Dims; infer_instance

/-- Every scalar entry of the array satisfies `P`. -/
def AllEntries (P : F → Prop) (img : Image) : Prop :=
  ∀ row ∈ img, ∀ p ∈ row, ∀ v ∈ p, P v

instance (P : F → Prop) [DecidablePred P] (img : Image) : Decidable (AllEntries P img) := by
  unfold AllEntries
  infer_instance

/-- Every entry of channel `c` (as read by numpy indexing) satisfies `P`. -/
def ChanAll (img : Image) (c : ℕ) (P : F → Prop) : Prop :=
  ∀ row ∈ img, ∀ p ∈ row, P (p.getD c (F.fin 0))

instance (img : Image) (c : ℕ) (P : F → Prop) [DecidablePred P] :
    Decidable (ChanAll img c P) := by
  unfold ChanAll
  infer_instance

/-- Channel count of the array (length of the first pixel's channel list). -/
def numChannels (img : Image) : ℕ := ((img.headD []).headD []).length

/-- The flattened (row-major) channel-`c` plane of the array. -/
def getChannel (img : Image) (c : ℕ) : List F :=
  img.flatMap (fun row => row.map (fun p => p.getD c (F.fin 0)))

theorem Dims.length_eq {img : Image} {h w ch : ℕ} (hd : Dims img h w ch) :
    img.length = h := hd.1

theorem Dims.row_length {img : Image} {h w ch : ℕ} (hd : Dims img h w ch)
    {row : List (List F)} (hr : row ∈ img) : row.length = w := (hd.2 row hr).1

theorem Dims.pix_length {img : Image} {h w ch : ℕ} (hd : Dims img h w ch)
    {row : List (List F)} (hr : row ∈ img) {p : List F} (hp : p ∈ row) :
    p.length = ch := (hd.2 row hr).2 p hp

theorem Dims_ewMap2 {f : F → F → F} {a b : Image} {h w ch : ℕ}
    (ha : Dims a h w ch) (hb : Dims b h w ch) : Dims (ewMap2 f a b) h w ch := by
  refine ⟨by simp [ewMap2, ha.length_eq, hb.length_eq], ?_⟩
  intro row hrow
  rcases exists_of_mem_zipWith hrow with ⟨ra, hra, rb, hrb, hrz⟩
  subst hrz
  refine ⟨by simp [ha.row_length hra, hb.row_length hrb], ?_⟩
  intro p hp
  rcases exists_of_mem_zipWith hp with ⟨pa, hpa, pb, hpb, hpz⟩
  subst hpz
  simp [ha.pix_length hra hpa, hb.pix_length hrb hpb]

theorem Dims_mapImg {g : F → F} {a : Image} {h w ch : ℕ} (ha : Dims a h w ch) :
    Dims (mapImg g a) h w ch := by
  refine ⟨by simp [mapImg, ha.length_eq], ?_⟩
  intro row hrow
  simp only [mapImg, List.mem_map] at hrow
  rcases hrow with ⟨ra, hra, hrz⟩
  subst hrz
  refine ⟨by simp [ha.row_length hra], ?_⟩
  intro p hp
  simp only [List.mem_map] at hp
  rcases hp with ⟨pa, hpa, hpz⟩
  subst hpz
  simp [ha.pix_length hra hpa]

theorem AllEntries_ewMap2 {f : F → F → F} {P Q R : F → Prop} {a b : Image}
    (hP : AllEntries P a) (hQ : AllEntries Q b)
    (hf : ∀ x y, P x → Q y → R (f x y)) : AllEntries R (ewMap2 f a b) := by
  intro row hrow p hp v hv
  rcases exists_of_mem_zipWith hrow with ⟨ra, hra, rb, hrb, hrz⟩
  subst hrz
  rcases exists_of_mem_zipWith hp with ⟨pa, hpa, pb, hpb, hpz⟩
  subst hpz
  rcases exists_of_mem_zipWith hv with ⟨x, hx, y, hy, hvz⟩
  subst hvz
  exact hf x y (hP ra hra pa hpa x hx) (hQ rb hrb pb hpb y hy)

theorem AllEntries_mapImg {g : F → F} {P Q : F → Prop} {a : Image}
    (hP : AllEntries P a) (hg : ∀ x, P x → Q (g x)) : AllEntries Q (mapImg g a) := by
  intro row hrow p hp v hv
  simp only [mapImg, List.mem_map] at hrow
  rcases hrow with ⟨ra, hra, hrz⟩; subst hrz
  simp only [List.mem_map] at hp
  rcases hp with ⟨pa, hpa, hpz⟩; subst hpz
  simp only [List.mem_map] at hv
  rcases hv with ⟨x, hx, hvz⟩; subst hvz
  exact hg x (hP ra hra pa hpa x hx)

theorem ewMap2_eq_left {f : F → F → F} {a b : Image} {h w ch : ℕ}
    (ha : Dims a h w ch) (hb : Dims b h w ch)
    (hf : ∀ x y, (∃ row ∈ a, ∃ p ∈ row, x ∈ p) → (∃ row ∈ b, ∃ p ∈ row, y ∈ p) →
          f x y = x) : ewMap2 f a b = a := by
  apply zipWith_eq_left
  · rw [ha.length_eq, hb.length_eq]
  · intro ra hra rb hrb
    apply zipWith_eq_left
    · rw [ha.row_length hra, hb.row_length hrb]
    · intro pa hpa pb hpb
      apply zipWith_eq_left
      · rw [ha.pix_length hra hpa, hb.pix_length hrb hpb]
      · intro x hx y hy
        exact hf x y ⟨ra, hra, pa, hpa, hx⟩ ⟨rb, hrb, pb, hpb, hy⟩

theorem ewMap2_eq_right {f : F → F → F} {a b : Image} {h w ch : ℕ}
    (ha : Dims a h w ch) (hb : Dims b h w ch)
    (hf : ∀ x y, (∃ row ∈ a, ∃ p ∈ row, x ∈ p) → (∃ row ∈ b, ∃ p ∈ row, y ∈ p) →
          f x y = y) : ewMap2 f a b = b := by
  apply zipWith_eq_right
  · rw [ha.length_eq, hb.length_eq]
  · intro ra hra rb hrb
    apply zipWith_eq_right
    · rw [ha.row_length hra, hb.row_length hrb]
    · intro pa hpa pb hpb
      apply zipWith_eq_right
      · rw [ha.pix_length hra hpa, hb.pix_length hrb hpb]
      · intro x hx y hy
        exact hf x y ⟨ra, hra, pa, hpa, hx⟩ ⟨rb, hrb, pb, hpb, hy⟩

/-! ### Mask variants (class `Mask`, source lines 259-381)

The `rect`/`smoothed` variants are `cv2.warpAffine` outputs of an
aligned-space field, `facehull`/`ellipse` are cv2 rasterizations, `dfl`
comes from `lib.model.masks`: all are external library results and enter
the embedding as data.  What the source file itself computes is the
elementwise product in `facehull_rect` and the finalization. -/

/-- The value is finite and lies in `[0, 1]`. -/
def FinIn01 : F → Prop
  | F.fin q => 0 ≤ q ∧ q ≤ 1
  | _ => False

instance : DecidablePred FinIn01 := by
  intro x
  cases x <;> simp [FinIn01] <;> infer_instance

/-- Ordering of two finite float values (`False` on any special). -/
def finLe : F → F → Prop
  | F.fin a, F.fin b => a ≤ b
  | _, _ => False

instance : ∀ x y : F, Decidable (finLe x y) := by
  intro x y
  cases x <;> cases y <;> simp [finLe] <;> infer_instance

theorem FinIn01_exists {x : F} (h : FinIn01 x) : ∃ q, x = F.fin q ∧ 0 ≤ q ∧ q ≤ 1 := by
  cases x with
  | fin q => exact ⟨q, rfl, h.1, h.2⟩
  | nan => exact h.elim
  | inf => exact h.elim
  | ninf => exact h.elim

/-- `Mask.facehull_rect` (source lines 355-361): the `rect` mask multiplied
elementwise by the `facehull` mask (`mask *= hull_mask`). -/
def facehull_rect_mask (rect_mask hull_mask : List F) : List F :=
  List.zipWith mulF rect_mask hull_mask

/-- `Mask.get_mask` with `mask_type = "facehull_rect"`: the variant output,
finalized (source lines 274-291). -/
def get_mask_facehull_rect (rect_mask hull_mask : List F) : List F :=
  finalize_mask (facehull_rect_mask rect_mask hull_mask)

/-- `Mask.get_mask` with `mask_type = "rect"`: the warp output, finalized. -/
def get_mask_rect (rect_mask : List F) : List F := finalize_mask rect_mask

/-- `Mask.get_mask` with `mask_type = "facehull"`: the hull raster, finalized. -/
def get_mask_facehull (hull_mask : List F) : List F := finalize_mask hull_mask

/-! ### Coverage and padding (source lines 37-41 of `patch_image`) -/

/-- Python `int()` applied to a float: truncation toward zero. -/
def pyInt (q : ℚ) : ℤ := if 0 ≤ q then ⌊q⌋ else ⌈q⌉

/-- `coverage = int(self.training_coverage_ratio * self.training_size)`. -/
def coverageOf (cr : ℚ) (training_size : ℕ) : ℤ := pyInt (cr * training_size)

/-- `padding = (self.training_size - coverage) // 2` (Python floor division). -/
def paddingOf (cr : ℚ) (training_size : ℕ) : ℤ :=
  Int.ediv ((training_size : ℤ) - coverageOf cr training_size) 2

/-! ### Claim C4 — `finalize_mask` output range -/

/-- Claim C4, counterexample to the claim as stated: the claim (and the spec
sentence it comes from) says NaN and Inf are replaced by 0 before the clamp,
but `np.nan_to_num` replaces `+inf` by the float32 maximum, which the clamp
then turns into 1, not 0. -/
theorem claim_C4_counterexample :
    finalize_mask [F.inf] = [F.fin 1] ∧ (F.fin 1 : F) ≠ F.fin 0 := by
  constructor
  · decide
  · decide

/-- Claim C4 (amended): for any input mask, with any NaN/Inf/out-of-range
entries, every entry of `finalize_mask`'s output is finite and lies in
`[0, 1]` (NaN is replaced by 0; `+Inf` saturates to 1 and `-Inf` to 0 because
`np.nan_to_num` substitutes the extreme finite float32 values, which the
subsequent clamp maps to the interval endpoints). -/
theorem claim_C4 (mask : List F) (x : F) (hx : x ∈ finalize_mask mask) :
    ∃ q, x = F.fin q ∧ 0 ≤ q ∧ q ≤ 1 := by
  simp only [finalize_mask, List.mem_map] at hx
  rcases hx with ⟨v, _, hv⟩
  subst hv
  cases v with
  | nan =>
      exact ⟨max 0 (min 1 0), by rw [show nanToNum F.nan = F.fin 0 from rfl, clipF_fin],
        le_max_left _ _, max_le (by norm_num) (min_le_left _ _)⟩
  | inf =>
      exact ⟨max 0 (min 1 float32_max),
        by rw [show nanToNum F.inf = F.fin float32_max from rfl, clipF_fin],
        le_max_left _ _, max_le (by norm_num) (min_le_left _ _)⟩
  | ninf =>
      exact ⟨max 0 (min 1 (-float32_max)),
        by rw [show nanToNum F.ninf = F.fin (-float32_max) from rfl, clipF_fin],
        le_max_left _ _, max_le (by norm_num) (min_le_left _ _)⟩
  | fin q =>
      exact ⟨max 0 (min 1 q), by rw [show nanToNum (F.fin q) = F.fin q from rfl, clipF_fin],
        le_max_left _ _, max_le (by norm_num) (min_le_left _ _)⟩

/-- Witness for claim C4 at a concrete input. -/
theorem claim_C4_witness :
    F.fin 0 ∈ finalize_mask [F.nan] ∧ ∃ q, (F.fin 0 : F) = F.fin q ∧ 0 ≤ q ∧ q ≤ 1 :=
  ⟨by decide, claim_C4 [F.nan] (F.fin 0) (by decide)⟩

/-! ### Claim C6 — coverage and padding arithmetic -/

/-- Claim C6, counterexample to the claim as stated: at
`training_size = 64`, `coverage_ratio = 1/100` the code computes
`coverage = int(0.64) = 0` while the claim's `round` gives 1, and the
computed padding is `32`, which is not `< 64/2`. -/
theorem claim_C6_counterexample :
    coverageOf (1 / 100) 64 = 0 ∧
    coverageOf (1 / 100) 64 ≠ round ((1 / 100 : ℚ) * 64) ∧
    paddingOf (1 / 100) 64 = 32 ∧
    ¬ ((paddingOf (1 / 100) 64 : ℚ) < (64 : ℚ) / 2) := by
  have hc : coverageOf (1 / 100) 64 = 0 := by
    rw [coverageOf, pyInt, if_pos (by norm_num : (0 : ℚ) ≤ 1 / 100 * (64 : ℕ))]
    rw [Int.floor_eq_iff]
    norm_num
  have hp : paddingOf (1 / 100) 64 = 32 := by
    rw [paddingOf, hc]
    decide
  have hr : round ((1 / 100 : ℚ) * 64) = 1 := by
    rw [round_eq, Int.floor_eq_iff]
    norm_num
  refine ⟨hc, ?_, hp, ?_⟩
  · rw [hc, hr]
    decide
  · rw [hp]
    norm_num

/-- Claim C6 (amended): for `training_size > 0` and `coverage_ratio ∈ (0, 1]`,
the code computes `coverage = int(coverage_ratio * training_size)`, i.e. the
floor (truncation), not the rounding, of the product; padding is the floor
division `(training_size - coverage) // 2`; `0 ≤ padding` and
`padding ≤ training_size / 2` always hold, and the strict bound
`padding < training_size / 2` holds whenever `coverage ≥ 1`. -/
theorem claim_C6 (training_size : ℕ) (cr : ℚ) (hts : 0 < training_size)
    (hcr : 0 < cr) (hcr1 : cr ≤ 1) :
    coverageOf cr training_size = ⌊cr * training_size⌋ ∧
    0 ≤ coverageOf cr training_size ∧
    coverageOf cr training_size ≤ training_size ∧
    0 ≤ paddingOf cr training_size ∧
    2 * paddingOf cr training_size ≤ training_size ∧
    (1 ≤ coverageOf cr training_size → 2 * paddingOf cr training_size < training_size) := by
  have hprod : (0 : ℚ) ≤ cr * training_size := by positivity
  have hcov_def : coverageOf cr training_size = ⌊cr * training_size⌋ := by
    simp [coverageOf, pyInt, hprod]
  have hcov0 : 0 ≤ coverageOf cr training_size := by
    rw [hcov_def]
    exact Int.floor_nonneg.mpr hprod
  have hcovts : coverageOf cr training_size ≤ training_size := by
    rw [hcov_def]
    have : cr * training_size ≤ training_size := by
      have := mul_le_of_le_one_left (by positivity : (0 : ℚ) ≤ (training_size : ℚ)) hcr1
      simpa using this
    calc ⌊cr * (training_size : ℚ)⌋ ≤ ⌊(training_size : ℚ)⌋ := Int.floor_le_floor this
      _ = training_size := Int.floor_natCast training_size
  set d : ℤ := (training_size : ℤ) - coverageOf cr training_size with hd
  have hpad_def : paddingOf cr training_size = Int.ediv d 2 := rfl
  have hdiv : d = 2 * Int.ediv d 2 + Int.emod d 2 := (Int.ediv_add_emod d 2).symm
  have hmod0 : 0 ≤ Int.emod d 2 := Int.emod_nonneg d (by norm_num)
  have hmod1 : Int.emod d 2 < 2 := Int.emod_lt_of_pos d (by norm_num)
  refine ⟨hcov_def, hcov0, hcovts, ?_, ?_, ?_⟩ <;> rw [hpad_def] <;> omega

/-- Witness for claim C6 at the spec's own scenario:
`training_size = 64`, `coverage_ratio = 5/8` (coverage 40, padding 12). -/
theorem claim_C6_witness :
    coverageOf (5 / 8) 64 = 40 ∧ paddingOf (5 / 8) 64 = 12 ∧
    (coverageOf (5 / 8) 64 = ⌊(5 / 8 : ℚ) * 64⌋ ∧
     0 ≤ coverageOf (5 / 8) 64 ∧
     coverageOf (5 / 8) 64 ≤ 64 ∧
     0 ≤ paddingOf (5 / 8) 64 ∧
     2 * paddingOf (5 / 8) 64 ≤ 64 ∧
     (1 ≤ coverageOf (5 / 8) 64 → 2 * paddingOf (5 / 8) 64 < 64)) := by
  have hc : coverageOf (5 / 8) 64 = 40 := by
    rw [coverageOf, pyInt, if_pos (by norm_num : (0 : ℚ) ≤ 5 / 8 * (64 : ℕ))]
    rw [Int.floor_eq_iff]
    norm_num
  have hp : paddingOf (5 / 8) 64 = 12 := by
    rw [paddingOf, hc]
    decide
  exact ⟨hc, hp, claim_C6 64 (5 / 8) (by norm_num) (by norm_num) (by norm_num)⟩

/-! ### Claim C9 — `facehull_rect` intersection property -/

unseal Rat.mul Rat.inv Rat.add Rat.sub in
/-- Claim C9, counterexample to the claim as stated: the factor masks are
raw cv2 outputs, and a cubic inverse warp of a 0/1 field (selected whenever
the alignment matrix scales down) overshoots above 1.  With a rect value of
`1/2` and a facehull value of `21/20`, the finalized `facehull_rect` mask
holds `21/40 > 1/2`, so it is not `≤` the rect mask there. -/
theorem claim_C9_counterexample :
    (get_mask_facehull_rect [F.fin (1 / 2)] [F.fin (21 / 20)]).getD 0 F.nan = F.fin (21 / 40) ∧
    (get_mask_rect [F.fin (1 / 2)]).getD 0 F.nan = F.fin (1 / 2) ∧
    ¬ finLe ((get_mask_facehull_rect [F.fin (1 / 2)] [F.fin (21 / 20)]).getD 0 F.nan)
        ((get_mask_rect [F.fin (1 / 2)]).getD 0 F.nan) := by
  refine ⟨by decide, by decide, by decide⟩

/-- Claim C9 (amended): `facehull_rect` is the elementwise product of the
rect and facehull masks (unconditionally), and whenever both factor masks
are elementwise finite in `[0, 1]` — e.g. with non-overshooting
interpolation — the finalized `facehull_rect` mask is elementwise `≤` the
finalized rect mask and `≤` the finalized facehull mask. -/
theorem claim_C9 (rect_mask hull_mask : List F)
    (hr : ∀ x ∈ rect_mask, FinIn01 x) (hhl : ∀ x ∈ hull_mask, FinIn01 x) :
    facehull_rect_mask rect_mask hull_mask = List.zipWith mulF rect_mask hull_mask ∧
    ∀ i, i < (get_mask_facehull_rect rect_mask hull_mask).length →
      finLe ((get_mask_facehull_rect rect_mask hull_mask).getD i F.nan)
        ((get_mask_rect rect_mask).getD i F.nan) ∧
      finLe ((get_mask_facehull_rect rect_mask hull_mask).getD i F.nan)
        ((get_mask_facehull hull_mask).getD i F.nan) := by
  refine ⟨rfl, ?_⟩
  intro i hi
  have hlen : (get_mask_facehull_rect rect_mask hull_mask).length =
      min rect_mask.length hull_mask.length := by
    simp [get_mask_facehull_rect, finalize_mask, facehull_rect_mask]
  rw [hlen] at hi
  have hir : i < rect_mask.length := lt_of_lt_of_le hi (min_le_left _ _)
  have hih : i < hull_mask.length := lt_of_lt_of_le hi (min_le_right _ _)
  have hizip : i < (facehull_rect_mask rect_mask hull_mask).length := by
    simp [facehull_rect_mask]
    omega
  obtain ⟨a, hxa, ha0, ha1⟩ := FinIn01_exists (hr _ (getD_mem hir F.nan))
  obtain ⟨b, hyb, hb0, hb1⟩ := FinIn01_exists (hhl _ (getD_mem hih F.nan))
  have hgfr : (get_mask_facehull_rect rect_mask hull_mask).getD i F.nan =
      clipF 0 1 (nanToNum (mulF (F.fin a) (F.fin b))) := by
    rw [get_mask_facehull_rect, finalize_mask,
        map_getD _ hizip F.nan F.nan, facehull_rect_mask,
        zipWith_getD mulF hir hih F.nan F.nan F.nan, hxa, hyb]
  have hgr : (get_mask_rect rect_mask).getD i F.nan = clipF 0 1 (nanToNum (F.fin a)) := by
    rw [get_mask_rect, finalize_mask, map_getD _ hir F.nan F.nan, hxa]
  have hgh : (get_mask_facehull hull_mask).getD i F.nan = clipF 0 1 (nanToNum (F.fin b)) := by
    rw [get_mask_facehull, finalize_mask, map_getD _ hih F.nan F.nan, hyb]
  have hab0 : 0 ≤ a * b := mul_nonneg ha0 hb0
  have hab1 : a * b ≤ 1 := mul_le_one₀ ha1 hb0 hb1
  have hclip : ∀ q : ℚ, 0 ≤ q → q ≤ 1 → clipF 0 1 (nanToNum (F.fin q)) = F.fin q := by
    intro q h0 h1
    rw [show nanToNum (F.fin q) = F.fin q from rfl, clipF_fin,
        min_eq_right h1, max_eq_right h0]
  have hclip_ab : clipF 0 1 (nanToNum (mulF (F.fin a) (F.fin b))) = F.fin (a * b) := by
    rw [show mulF (F.fin a) (F.fin b) = F.fin (a * b) from rfl]
    exact hclip (a * b) hab0 hab1
  rw [hgfr, hgr, hgh, hclip_ab, hclip a ha0 ha1, hclip b hb0 hb1]
  constructor
  · exact mul_le_of_le_one_right ha0 hb1
  · exact mul_le_of_le_one_left hb0 ha1

unseal Rat.mul Rat.inv Rat.add Rat.sub in
/-- Witness for claim C9 at a concrete input. -/
theorem claim_C9_witness :
    (∀ x ∈ [F.fin (1 / 2)], FinIn01 x) ∧
    (facehull_rect_mask [F.fin (1 / 2)] [F.fin (1 / 4)] =
      List.zipWith mulF [F.fin (1 / 2)] [F.fin (1 / 4)] ∧
    ∀ i, i < (get_mask_facehull_rect [F.fin (1 / 2)] [F.fin (1 / 4)]).length →
      finLe ((get_mask_facehull_rect [F.fin (1 / 2)] [F.fin (1 / 4)]).getD i F.nan)
        ((get_mask_rect [F.fin (1 / 2)]).getD i F.nan) ∧
      finLe ((get_mask_facehull_rect [F.fin (1 / 2)] [F.fin (1 / 4)]).getD i F.nan)
        ((get_mask_facehull [F.fin (1 / 4)]).getD i F.nan)) :=
  ⟨by decide, claim_C9 [F.fin (1 / 2)] [F.fin (1 / 4)] (by decide) (by decide)⟩

/-! ### DetectedFace and `Convert.get_new_image` (source lines 68-106) -/

/-- The aligner-supplied per-frame face data used by the compositing core:
the aligned-face crop buffer, the landmark points, and the frame
dimensions `(height, width)`. -/
structure DetectedFace where
  alignedFace : Image
  landmarks : List (ℚ × ℚ)
  frameDims : ℕ × ℕ
deriving DecidableEq, Repr

/-- Pixel (channel list) at row `r`, column `x`. -/
def pixelAt (img : Image) (r x : ℕ) : List F := (img.getD r []).getD x []

/-- Python slice assignment `m[lo:hi, lo:hi] = patch` on a pixel grid. -/
def setRegion (m : Image) (lo hi : ℕ) (patch : Image) : Image :=
  (List.range m.length).map (fun r =>
    if lo ≤ r ∧ r < hi then
      (List.range (m.getD r []).length).map (fun x =>
        if lo ≤ x ∧ x < hi then (patch.getD (r - lo) []).getD (x - lo) []
        else (m.getD r []).getD x [])
    else m.getD r [])

/-- Python slice read `img[lo:hi, lo:hi]` (a square sub-grid). -/
def sliceSquare (lo hi : ℕ) (img : Image) : Image :=
  ((img.drop lo).take (hi - lo)).map (fun row => (row.drop lo).take (hi - lo))

/-- `np.zeros(input_mask_shape, np.float32)` for a rank-3 shape. -/
def zerosOfShape : List ℕ → Image
  | [a, b, c] => List.replicate a (List.replicate b (List.replicate c (F.fin 0)))
  | _ => []

/-- The synthesized patch that `get_new_image` writes back into the aligned
crop (source lines 71-95): slice the CoverageRegion out of the crop, resize
to the model input size (external `cv2.resize`), divide by 255 and clip to
`[0,1]`, feed the encoder (external), together with a zero mask channel when
the model declares one; resize the output back to coverage size (external
`cv2.resize`, `INTER_CUBIC`), multiply by 255 and clip to `[0,255]`. -/
def new_face_patch
    (encoder : List Image → List Image)
    (resizeIn : ℕ → Image → Image)
    (resizeOut : ℕ → Image → Image)
    (input_mask_shape : Option (List ℕ))
    (input_size coverage lo hi : ℕ)
    (face : DetectedFace) : Image :=
  let src_face := face.alignedFace
  let coverage_face := sliceSquare lo hi src_face
  let coverage_face := resizeIn input_size coverage_face
  let coverage_face := mapImg (fun v => clipF 0 1 (divF v (F.fin 255))) coverage_face
  let feed := match input_mask_shape with
    | some shape => [coverage_face, zerosOfShape shape]
    | none => [coverage_face]
  let new_face := (encoder feed).getD 0 []
  let new_face := resizeOut coverage new_face
  mapImg (fun v => clipF 0 255 (mulF v (F.fin 255))) new_face

/-- `Convert.get_new_image` (source lines 68-106): builds the synthesized
patch, executes `src_face[self.crop, self.crop] = new_face` — overwriting
the CoverageRegion of the DetectedFace's aligned-face crop in place — then
warps the patched crop into frame space over a copy of the frame (warp
external).  Returns the warped frame image paired with the DetectedFace as
it stands after the call. -/
def get_new_image
    (encoder : List Image → List Image)
    (resizeIn : ℕ → Image → Image)
    (resizeOut : ℕ → Image → Image)
    (warpAffine : Image → List (List ℚ) → ℕ × ℕ → Image → Image)
    (input_mask_shape : Option (List ℕ))
    (input_size coverage lo hi : ℕ)
    (image : Image) (face : DetectedFace) (mat : List (List ℚ)) :
    Image × DetectedFace :=
  let new_face :=
    new_face_patch encoder resizeIn resizeOut input_mask_shape input_size coverage lo hi face
  let src_face := setRegion face.alignedFace lo hi new_face
  let background := image
  let new_image := warpAffine src_face mat (face.frameDims.2, face.frameDims.1) background
  (new_image, { face with alignedFace := src_face })

theorem pixelAt_setRegion_outside (m : Image) (lo hi : ℕ) (patch : Image) (r x : ℕ)
    (h : ¬(lo ≤ r ∧ r < hi) ∨ ¬(lo ≤ x ∧ x < hi)) :
    pixelAt (setRegion m lo hi patch) r x = pixelAt m r x := by
  unfold pixelAt setRegion
  by_cases hrlt : r < m.length
  · rw [range_map_getD _ hrlt ([] : List (List F))]
    by_cases hreg : lo ≤ r ∧ r < hi
    · rcases h with h | h
      · exact absurd hreg h
      · rw [if_pos hreg]
        by_cases hxlt : x < (m.getD r []).length
        · rw [range_map_getD _ hxlt ([] : List F), if_neg h]
        · push_neg at hxlt
          rw [List.getD_eq_default _ _ (by simpa using hxlt),
              List.getD_eq_default _ _ hxlt]
    · rw [if_neg hreg]
  · push_neg at hrlt
    have h1 : ((List.range m.length).map (fun r =>
        if lo ≤ r ∧ r < hi then
          (List.range (m.getD r []).length).map (fun x =>
            if lo ≤ x ∧ x < hi then (patch.getD (r - lo) []).getD (x - lo) []
            else (m.getD r []).getD x [])
        else m.getD r [])).getD r ([] : List (List F)) = [] :=
      List.getD_eq_default _ _ (by simpa using hrlt)
    rw [h1, List.getD_eq_default m _ hrlt]

/-! ### Claim C5 — the DetectedFace is not read-only -/

unseal Rat.mul Rat.inv Rat.add Rat.sub in
/-- Claim C5, counterexample to the claim as stated: with a 1×1 aligned crop
holding pixel value 0, an encoder returning the constant patch 1, identity
resizes and an identity warp, `get_new_image` leaves the DetectedFace with
its aligned crop holding 255: the crop buffer is written in place (source
line 96, `src_face[self.crop, self.crop] = new_face`), so it is not
unchanged after the call. -/
theorem claim_C5_counterexample :
    ((get_new_image (fun _ => [[[[F.fin 1]]]]) (fun _ img => img) (fun _ img => img)
        (fun s _ _ _ => s) none 1 1 0 1 [[[F.fin 0]]]
        ⟨[[[F.fin 0]]], [], (1, 1)⟩ []).2).alignedFace = [[[F.fin 255]]] ∧
    ([[[F.fin 255]]] : Image) ≠ ([[[F.fin 0]]] : Image) := by
  exact ⟨by decide, by decide⟩

/-- Claim C5 (amended): `get_new_image` mutates exactly the CoverageRegion
of the DetectedFace's aligned-face crop: the returned DetectedFace keeps its
landmarks and frame dimensions, its aligned crop equals the original with
the synthesized patch written into the `[lo:hi, lo:hi]` sub-square, and
every pixel outside that sub-square is unchanged. -/
theorem claim_C5
    (encoder : List Image → List Image)
    (resizeIn : ℕ → Image → Image)
    (resizeOut : ℕ → Image → Image)
    (warpAffine : Image → List (List ℚ) → ℕ × ℕ → Image → Image)
    (input_mask_shape : Option (List ℕ))
    (input_size coverage lo hi : ℕ)
    (image : Image) (face : DetectedFace) (mat : List (List ℚ)) :
    ((get_new_image encoder resizeIn resizeOut warpAffine input_mask_shape
        input_size coverage lo hi image face mat).2).landmarks = face.landmarks ∧
    ((get_new_image encoder resizeIn resizeOut warpAffine input_mask_shape
        input_size coverage lo hi image face mat).2).frameDims = face.frameDims ∧
    ((get_new_image encoder resizeIn resizeOut warpAffine input_mask_shape
        input_size coverage lo hi image face mat).2).alignedFace =
      setRegion face.alignedFace lo hi
        (new_face_patch encoder resizeIn resizeOut input_mask_shape
          input_size coverage lo hi face) ∧
    ∀ r x : ℕ, (¬(lo ≤ r ∧ r < hi) ∨ ¬(lo ≤ x ∧ x < hi)) →
      pixelAt ((get_new_image encoder resizeIn resizeOut warpAffine input_mask_shape
          input_size coverage lo hi image face mat).2).alignedFace r x =
        pixelAt face.alignedFace r x := by
  refine ⟨rfl, rfl, rfl, ?_⟩
  intro r x hout
  exact pixelAt_setRegion_outside face.alignedFace lo hi _ r x hout

unseal Rat.mul Rat.inv Rat.add Rat.sub in
/-- Witness for claim C5 at a concrete input: the pixel at `(5, 0)`, outside
the `[0:1, 0:1]` coverage square, is untouched. -/
theorem claim_C5_witness :
    (¬((0 : ℕ) ≤ 5 ∧ (5 : ℕ) < 1) ∨ ¬((0 : ℕ) ≤ 0 ∧ (0 : ℕ) < 1)) ∧
    pixelAt ((get_new_image (fun _ => [[[[F.fin 1]]]]) (fun _ img => img) (fun _ img => img)
        (fun s _ _ _ => s) none 1 1 0 1 [[[F.fin 0]]]
        ⟨[[[F.fin 0]]], [], (1, 1)⟩ []).2).alignedFace 5 0 =
      pixelAt ([[[F.fin 0]]] : Image) 5 0 :=
  ⟨by decide,
   (claim_C5 (fun _ => [[[[F.fin 1]]]]) (fun _ img => img) (fun _ img => img)
      (fun s _ _ _ => s) none 1 1 0 1 [[[F.fin 0]]]
      ⟨[[[F.fin 0]]], [], (1, 1)⟩ []).2.2.2 5 0 (by decide)⟩

/-! ### `Convert.hist_match` (source lines 232-256)

Per-channel histogram matching.  The channel planes `new[:, :, c]`,
`frame[:, :, c]`, `image_mask[:, :, c]` are modelled as flat row-major
`H×W` buffers of width `W`. -/

/-- numpy ascending sort order on float values (NaN sorts last). -/
def leFb : F → F → Bool
  | F.ninf, _ => true
  | F.fin _, F.ninf => false
  | F.fin a, F.fin b => decide (a ≤ b)
  | F.fin _, F.inf => true
  | F.fin _, F.nan => true
  | F.inf, F.ninf => false
  | F.inf, F.fin _ => false
  | F.inf, F.inf => true
  | F.inf, F.nan => true
  | F.nan, F.nan => true
  | F.nan, _ => false

/-- The sort order as a relation. -/
def leF (a b : F) : Prop := leFb a b = true

instance : DecidableRel leF := by
  intro a b
  unfold leF
  infer_instance

/-- Ascending sort (the sorting pass inside `np.unique`). -/
def sortF (l : List F) : List F := List.insertionSort leF l

/-- Remove adjacent duplicates (the `aux[1:] != aux[:-1]` dedup pass of
`np.unique` on a sorted array). -/
def dedupAdj : List F → List F
  | [] => []
  | [x] => [x]
  | x :: y :: t => if x = y then dedupAdj (y :: t) else x :: dedupAdj (y :: t)

/-- `np.unique(l)`: sorted distinct values. -/
def uniqueF (l : List F) : List F := dedupAdj (sortF l)

/-- `np.unique(l, return_counts=True)`: occurrence count per unique value. -/
def countsIn (l : List F) : List ℕ := (uniqueF l).map (fun v => l.count v)

/-- `np.cumsum` with a running accumulator. -/
def cumsumFrom (acc : ℚ) : List ℚ → List ℚ
  | [] => []
  | x :: t => (acc + x) :: cumsumFrom (acc + x) t

/-- The normalized empirical CDF: `np.cumsum(counts)` divided by its last
entry (`quants /= quants[-1]`). -/
def normCumsum (counts : List ℕ) : List ℚ :=
  let c := cumsumFrom 0 (counts.map (fun n => (n : ℚ)))
  c.map (fun q => q / c.getLastD 1)

/-- `np.interp(x, xp, fp)` for one query point: constant extrapolation
outside `xp`, and on an interval `xp[j] ≤ x < xp[j+1]` the linear formula
`slope * (x - xp[j]) + fp[j]` evaluated in float arithmetic. -/
def npInterpF (x : ℚ) : List ℚ → List F → F
  | [_], [f0] => f0
  | x0 :: x1 :: xs, f0 :: f1 :: fs =>
      if x < x0 then f0
      else if x < x1 then
        addF (mulF (divF (subF f1 f0) (F.fin (x1 - x0))) (F.fin (x - x0))) f0
      else npInterpF x (x1 :: xs) (f1 :: fs)
  | _, _ => F.nan

/-- `np.nonzero` on a 2-D channel plane: the `(row, column)` index pairs of
the nonzero entries, in row-major scan order. -/
def nonzeroPairs (W : ℕ) (image_mask : List F) : List (ℕ × ℕ) :=
  (List.range image_mask.length).filterMap (fun i =>
    if image_mask.getD i (F.fin 0) ≠ F.fin 0 then some (i / W, i % W) else none)

/-- `ndarray.put(indices, values)`: the index argument is flattened into a
single list of flat-buffer indices, the value array is cycled when shorter
than the index list, and writes happen sequentially. -/
def np_put (a : List F) (ind : List ℕ) (vals : List F) : List F :=
  ind.enum.foldl (fun acc p => acc.set p.2 (vals.getD (p.1 % vals.length) (F.fin 0))) a

/-- `Convert.hist_match` (source lines 232-256) on one channel plane (flat
row-major buffer of width `W`).  Mirrors the source exactly — including
`new.put(mask_indices, interp_s_values[bin_idx])`, where `mask_indices` is
the `(ys, xs)` tuple from `np.nonzero`: `ndarray.put` flattens that tuple to
the concatenation `ys ++ xs` of flat indices and cycles the `K` replacement
values over those `2K` writes. -/
def hist_match (W : ℕ) (new frame image_mask : List F) : List F :=
  let pairs := nonzeroPairs W image_mask
  if pairs = [] then new
  else
    let m_new := pairs.map (fun p => new.getD (p.1 * W + p.2) (F.fin 0))
    let m_frame := pairs.map (fun p => frame.getD (p.1 * W + p.2) (F.fin 0))
    let s_values := uniqueF m_new
    let bin_idx := m_new.map (fun v => s_values.indexOf v)
    let s_counts := countsIn m_new
    let t_values := uniqueF m_frame
    let t_counts := countsIn m_frame
    let s_quants := normCumsum s_counts
    let t_quants := normCumsum t_counts
    let interp_s_values := s_quants.map (fun q => npInterpF q t_quants t_values)
    let new_vals := bin_idx.map (fun i => interp_s_values.getD i F.nan)
    np_put new (pairs.map (fun p => p.1) ++ pairs.map (fun p => p.2)) new_vals

/-! ### Claim C8 — histogram matching on an all-zero mask is a no-op -/

/-- Claim C8: for any channel plane whose mask has no nonzero pixel,
`hist_match` returns its input unchanged — the early return at source lines
234-236 fires before any mutation, a defined no-op rather than an error. -/
theorem claim_C8 (W : ℕ) (new frame image_mask : List F)
    (hz : ∀ x ∈ image_mask, x = F.fin 0) :
    hist_match W new frame image_mask = new := by
  have hpairs : nonzeroPairs W image_mask = [] := by
    unfold nonzeroPairs
    rw [List.filterMap_eq_nil_iff]
    intro i hi
    rw [List.mem_range] at hi
    rw [if_neg (not_ne_iff.mpr (hz _ (getD_mem hi (F.fin 0))))]
  unfold hist_match
  rw [hpairs]
  simp

/-- Witness for claim C8 at a concrete input. -/
theorem claim_C8_witness :
    (∀ x ∈ [F.fin 0, F.fin 0], x = F.fin 0) ∧
    hist_match 2 [F.fin 7, F.fin 9] [F.fin 3, F.fin 4] [F.fin 0, F.fin 0] =
      [F.fin 7, F.fin 9] :=
  ⟨by decide, claim_C8 2 [F.fin 7, F.fin 9] [F.fin 3, F.fin 4] [F.fin 0, F.fin 0] (by decide)⟩

/-! ### Claim C3 — histogram matching is not the identity on matched
distributions: the `ndarray.put` call writes to the wrong pixels -/

unseal Rat.mul Rat.inv Rat.add Rat.sub in
/-- Claim C3: evaluation of `hist_match` at the failing input.  On the 2×2
plane `new = frame = [[10, 20], [30, 40]]` with an all-ones mask the two
masked distributions are identical and the CDF-matched replacement values
are exactly `[10, 20, 30, 40]` — but `new.put(mask_indices, ...)` receives
the `(ys, xs) = ([0,0,1,1], [0,1,0,1])` tuple as its index argument, so it
writes the cycled values to flat indices `[0,0,1,1,0,1,0,1]`, producing
`[[30, 40], [30, 40]] ≠ new`: the claimed identity (and the intended
histogram transfer) is broken by this index misuse. -/
theorem claim_C3 :
    hist_match 2 [F.fin 10, F.fin 20, F.fin 30, F.fin 40]
        [F.fin 10, F.fin 20, F.fin 30, F.fin 40]
        [F.fin 1, F.fin 1, F.fin 1, F.fin 1] =
      [F.fin 30, F.fin 40, F.fin 30, F.fin 40] ∧
    ([F.fin 30, F.fin 40, F.fin 30, F.fin 40] : List F) ≠
      [F.fin 10, F.fin 20, F.fin 30, F.fin 40] := by
  exact ⟨by decide, by decide⟩

/-! ### `Convert.apply_fixes` (source lines 145-220) -/

/-- The `sharpen_image` option values. -/
inductive SharpenMode where
  | box_filter : SharpenMode
  | gaussian_filter : SharpenMode
deriving DecidableEq, Repr

/-- The configuration flags read by `apply_fixes`. -/
structure FixArgs where
  draw_transparent : Bool
  sharpen_image : Option SharpenMode
  avg_color_adjust : Bool
  match_histogram : Bool
  seamless_clone : Bool
deriving DecidableEq, Repr

/-- The box sharpening kernel `[[-1,-1,-1],[-1,9,-1],[-1,-1,-1]]`. -/
def boxKernel : List (List ℚ) := [[-1, -1, -1], [-1, 9, -1], [-1, -1, -1]]

/-- `cv2.addWeighted(a, alpha, b, beta, gamma)` in float arithmetic. -/
def addWeightedImg (a : Image) (alpha : ℚ) (b : Image) (beta : ℚ) (gamma : ℚ) : Image :=
  ewMap2 (fun x y => addF (addF (mulF x (F.fin alpha)) (mulF y (F.fin beta))) (F.fin gamma)) a b

/-- The sharpen step (source lines 157-168): either the box kernel via
external `cv2.filter2D`, or the unsharp combination
`1.5·masked − 0.5·GaussianBlur(masked, σ=3)` with the blur external. -/
def sharpen_step
    (filter2D : List (List ℚ) → Image → Image)
    (gaussianBlur : ℚ → Image → Image)
    (mode : SharpenMode) (masked : Image) : Image :=
  match mode with
  | SharpenMode.box_filter => filter2D boxKernel masked
  | SharpenMode.gaussian_filter =>
      addWeightedImg masked (3 / 2) (gaussianBlur 3 masked) (-(1 / 2)) 0

/-- Per-channel sums over axes `(0, 1)`: `np.sum(img, axis=(0, 1))`. -/
def axisSum01 (img : Image) : List F :=
  (List.range (numChannels img)).map (fun c => sumF (getChannel img c))

/-- numpy broadcast `img + v` of an `(H, W, C)` array with a `(C,)` vector. -/
def addBroadcast (img : Image) (v : List F) : Image :=
  img.map (fun row => row.map (fun p => List.zipWith addF p v))

/-- One iteration of the average-color adjustment (source lines 171-176):
clip the working image in place, form `diff = frame - masked`, take the
per-channel mask-weighted sums, divide by the per-channel mask sums, and
broadcast-add the resulting adjustment vector. -/
def avg_color_once (frame image_mask masked : Image) : Image :=
  let maskedC := clipImg 0 255 masked
  let diff := ewMap2 subF frame maskedC
  let avg_diff := axisSum01 (ewMap2 mulF diff image_mask)
  let adjustment := List.zipWith divF avg_diff (axisSum01 image_mask)
  addBroadcast maskedC adjustment

/-- The `for _ in [0, 1]` loop of the average-color adjustment. -/
def avg_color_adjust (frame image_mask masked : Image) : Image :=
  avg_color_once frame image_mask (avg_color_once frame image_mask masked)

/-- Write a flat row-major channel plane back: `img[:, :, c] = vals`. -/
def setChannel (img : Image) (c : ℕ) (vals : List F) : Image :=
  (List.range img.length).map (fun r =>
    (List.range (img.getD r []).length).map (fun x =>
      ((img.getD r []).getD x []).set c
        (vals.getD (r * (img.headD []).length + x) (F.fin 0))))

/-- `Convert.color_hist_match` (source lines 222-230): histogram-match each
of the three channels in place. -/
def color_hist_match (new frame image_mask : Image) : Image :=
  [0, 1, 2].foldl (fun acc c =>
    setChannel acc c
      (hist_match ((new.headD []).length) (getChannel acc c) (getChannel frame c)
        (getChannel image_mask c))) new

/-- The optional sharpening / color-correction sequence of `apply_fixes`
(source lines 155-180), producing the corrected `masked` image that the
blend consumes.  Each step clips its input in place exactly where the
source does. -/
def post_correct (args : FixArgs)
    (filter2D : List (List ℚ) → Image → Image)
    (gaussianBlur : ℚ → Image → Image)
    (frame image_mask masked0 : Image) : Image :=
  let m1 := match args.sharpen_image with
    | some mode => sharpen_step filter2D gaussianBlur mode (clipImg 0 255 masked0)
    | none => masked0
  let m2 := if args.avg_color_adjust then avg_color_adjust frame image_mask m1 else m1
  if args.match_histogram then color_hist_match (clipImg 0 255 m2) frame image_mask else m2

/-- The linear blend (source lines 213-216):
`foreground = masked * image_mask`, `background = frame * (1.0 - image_mask)`,
`blended = foreground + background`. -/
def linear_blend (masked frame image_mask : Image) : Image :=
  ewMap2 addF (ewMap2 mulF masked image_mask)
    (ewMap2 mulF frame (mapImg (fun m => subF (F.fin 1) m) image_mask))

/-- The numpy ValueError message of an empty `np.min` reduction. -/
def np_min_empty_error : String :=
  "zero-size array to reduction operation minimum which has no identity"

/-- The numpy ValueError message of an empty `np.max` reduction. -/
def np_max_empty_error : String :=
  "zero-size array to reduction operation maximum which has no identity"

/-- `np.min` on an index array: a ValueError on an empty array. -/
def np_min (l : List ℕ) : Except String ℕ :=
  match l with
  | [] => Except.error np_min_empty_error
  | x :: t => Except.ok (t.foldl Nat.min x)

/-- `np.max` on an index array: a ValueError on an empty array. -/
def np_max (l : List ℕ) : Except String ℕ :=
  match l with
  | [] => Except.error np_max_empty_error
  | x :: t => Except.ok (t.foldl Nat.max x)

/-- `np.nonzero` on the `(H, W, C)` mask array: the `(y, x, c)` index
triples of the nonzero entries, in C (row-major) order. -/
def nonzeroTriples (img : Image) : List (ℕ × ℕ × ℕ) :=
  (List.range img.length).flatMap (fun r =>
    (List.range ((img.getD r []).length)).flatMap (fun x =>
      (List.range (((img.getD r []).getD x []).length)).filterMap (fun c =>
        if ((img.getD r []).getD x []).getD c (F.fin 0) ≠ F.fin 0 then some (r, x, c)
        else none)))

/-- Python 2-D slice `img[ylo:yhi, xlo:xhi, :]`. -/
def sliceGrid (ylo yhi xlo xhi : ℕ) (img : Image) : Image :=
  ((img.drop ylo).take (yhi - ylo)).map (fun row => (row.drop xlo).take (xhi - xlo))

/-- `np.pad(frame, ((h, h), (w, w), (0, 0)), "constant")`: zero pixels. -/
def padConstant (h w : ℕ) (img : Image) : Image :=
  let zpix : List F := List.replicate (numChannels img) (F.fin 0)
  let zrow : List (List F) := List.replicate (w + (img.headD []).length + w) zpix
  List.replicate h zrow ++
    img.map (fun row => List.replicate w zpix ++ row ++ List.replicate w zpix) ++
    List.replicate h zrow

/-- Python `l[h:-h]`. -/
def trimEnds {α : Type} (h : ℕ) (l : List α) : List α :=
  (l.drop h).take (l.length - 2 * h)

/-- The seamless-clone branch of `apply_fixes` (source lines 182-211): the
bounding box of the mask's nonzero indices (the `np.min`/`np.max`
reductions raise a ValueError on an all-zero mask), the rint-ed crop of the
corrected image, the binarized mask crop (`nonzero ↦ 255`), the zero-padded
frame, the external `cv2.seamlessClone` call centered at the bounding-box
midpoint offset by the frame half-dimensions, and the removal of the
padding.  The `astype(uint8)` casts around the external clone call are
elided: the clone is an opaque parameter. -/
def seamless_branch
    (seamlessClone : Image → Image → Image → ℕ × ℕ → Image)
    (frame masked image_mask : Image) : Except String Image :=
  let h := frame.length / 2
  let w := (frame.headD []).length / 2
  let trip := nonzeroTriples image_mask
  let y_indices := trip.map (fun t => t.1)
  let x_indices := trip.map (fun t => t.2.1)
  match np_min y_indices with
  | Except.error e => Except.error e
  | Except.ok ymin =>
  match np_max y_indices with
  | Except.error e => Except.error e
  | Except.ok ymax =>
  match np_min x_indices with
  | Except.error e => Except.error e
  | Except.ok xmin =>
  match np_max x_indices with
  | Except.error e => Except.error e
  | Except.ok xmax =>
  let y_center := (rintQ (((ymax : ℚ) + (ymin : ℚ)) / 2)).toNat + h
  let x_center := (rintQ (((xmax : ℚ) + (xmin : ℚ)) / 2)).toNat + w
  let insertion := rintImg (sliceGrid ymin ymax xmin xmax masked)
  let insertion_mask :=
    mapImg (fun v => if v ≠ F.fin 0 then F.fin 255 else v)
      (sliceGrid ymin ymax xmin xmax image_mask)
  let prior := padConstant h w frame
  let blended := seamlessClone insertion prior insertion_mask (x_center, y_center)
  Except.ok ((trimEnds h blended).map (fun row => trimEnds w row))

instance {e a : Type} [DecidableEq e] [DecidableEq a] : DecidableEq (Except e a) := by
  intro x y
  cases x <;> cases y
  case error.error u v =>
    exact decidable_of_iff (u = v) (by simp)
  case ok.ok u v =>
    exact decidable_of_iff (u = v) (by simp)
  case error.ok => exact isFalse (by simp)
  case ok.error => exact isFalse (by simp)

/-- The TypeError raised by `np.concatenate(new_image, alpha, axis=2)`
(source lines 151-153): `alpha` binds positionally to the `axis` parameter
while `axis=2` is also passed by keyword, so the call never returns. -/
def concatenate_axis_error : String :=
  "TypeError: concatenate got multiple values for argument axis"

/-- `Convert.apply_fixes` (source lines 145-220): the transparent-alpha
block (which raises), the sharpening / color corrections, the choice of
seamless-clone versus linear blend, and the final clip-and-round. -/
def apply_fixes (args : FixArgs)
    (filter2D : List (List ℚ) → Image → Image)
    (gaussianBlur : ℚ → Image → Image)
    (seamlessClone : Image → Image → Image → ℕ × ℕ → Image)
    (frame new_image image_mask : Image) : Except String Image :=
  if args.draw_transparent then
    Except.error concatenate_axis_error
  else
    let masked := post_correct args filter2D gaussianBlur frame image_mask new_image
    let blendedE :=
      if args.seamless_clone && !args.draw_transparent then
        seamless_branch seamlessClone frame masked image_mask
      else
        Except.ok (linear_blend masked frame image_mask)
    match blendedE with
    | Except.error e => Except.error e
    | Except.ok blended => Except.ok (rintImg (clipImg 0 255 blended))

/-! ### Claim C7 — the transparent-alpha block raises a TypeError -/

/-- Claim C7: evaluation of the code on the draw_transparent path.  For
every input, `apply_fixes` with `draw_transparent` enabled fails with the
`np.concatenate` TypeError instead of appending an alpha channel:
`np.concatenate(new_image, alpha, axis=2)` passes `alpha` positionally to
the `axis` parameter while also passing `axis=2` by keyword (the sequence
argument was not wrapped in a tuple), so the first concatenate call raises
and neither the frame, the synthesized image, nor the mask is ever
extended, and no blend takes place. -/
theorem claim_C7 (args : FixArgs)
    (filter2D : List (List ℚ) → Image → Image)
    (gaussianBlur : ℚ → Image → Image)
    (seamlessClone : Image → Image → Image → ℕ × ℕ → Image)
    (frame new_image image_mask : Image) :
    apply_fixes { args with draw_transparent := true } filter2D gaussianBlur
      seamlessClone frame new_image image_mask =
      Except.error concatenate_axis_error := rfl

/-! ### Claim C1 — all-zero mask on the seamless-clone path -/

/-- An all-zero mask array has no nonzero index triples. -/
theorem nonzeroTriples_eq_nil {image_mask : Image}
    (hz : AllEntries (fun v => v = F.fin 0) image_mask) :
    nonzeroTriples image_mask = [] := by
  unfold nonzeroTriples
  rw [List.flatMap_eq_nil_iff]
  intro r hr
  rw [List.mem_range] at hr
  rw [List.flatMap_eq_nil_iff]
  intro x hx
  rw [List.mem_range] at hx
  rw [List.filterMap_eq_nil_iff]
  intro c hc
  rw [List.mem_range] at hc
  exact if_neg (not_ne_iff.mpr
    (hz _ (getD_mem hr []) _ (getD_mem hx []) _ (getD_mem hc (F.fin 0))))

/-- On an all-zero mask the seamless branch fails at the very first
bounding-box reduction, `np.min(y_indices)`, whatever the clone routine
is — the clone is never consulted. -/
theorem seamless_branch_allzero
    (seamlessClone : Image → Image → Image → ℕ × ℕ → Image)
    (frame masked image_mask : Image)
    (hz : AllEntries (fun v => v = F.fin 0) image_mask) :
    seamless_branch seamlessClone frame masked image_mask =
      Except.error np_min_empty_error := by
  simp [seamless_branch, nonzeroTriples_eq_nil hz, np_min]

unseal Rat.mul Rat.inv Rat.add Rat.sub in
/-- Claim C1, counterexample to the claim as stated: on an all-zero mask
with seamless cloning enabled, the error that surfaces from `apply_fixes`
is exactly the empty-reduction ValueError raised by `np.min` inside the
bounding-box computation (source line 188) — `apply_fixes` performs no
all-zero-mask check of its own before that computation. -/
theorem claim_C1_counterexample :
    apply_fixes ⟨false, none, false, false, true⟩ (fun _ img => img) (fun _ img => img)
        (fun ins _ _ _ => ins) [[[F.fin 0]]] [[[F.fin 5]]] [[[F.fin 0]]] =
      Except.error np_min_empty_error ∧
    np_min ([] : List ℕ) = Except.error np_min_empty_error := by
  exact ⟨by decide, by decide⟩

/-- Claim C1 (amended): for every frame processed with seamless_clone
enabled and draw_transparent disabled, an all-zero post-processed mask
makes the frame fail with a reported error before the seamless-clone
routine is invoked — but the failure is the ValueError raised by the empty
`np.min` reduction inside the bounding-box computation, not a dedicated
check in `apply_fixes`: the result is this error for every possible clone
routine, so `cv2.seamlessClone` is never reached. -/
theorem claim_C1 (args : FixArgs)
    (filter2D : List (List ℚ) → Image → Image)
    (gaussianBlur : ℚ → Image → Image)
    (seamlessClone : Image → Image → Image → ℕ × ℕ → Image)
    (frame new_image image_mask : Image)
    (hz : AllEntries (fun v => v = F.fin 0) image_mask) :
    apply_fixes { args with draw_transparent := false, seamless_clone := true }
      filter2D gaussianBlur seamlessClone frame new_image image_mask =
      Except.error np_min_empty_error := by
  have hsb := seamless_branch_allzero seamlessClone frame
    (post_correct { args with draw_transparent := false, seamless_clone := true }
      filter2D gaussianBlur frame image_mask new_image) image_mask hz
  simp [apply_fixes, hsb]

unseal Rat.mul Rat.inv Rat.add Rat.sub in
/-- Witness for claim C1 at a concrete input. -/
theorem claim_C1_witness :
    AllEntries (fun v => v = F.fin 0) ([[[F.fin 0]]] : Image) ∧
    apply_fixes ⟨false, some SharpenMode.gaussian_filter, true, false, true⟩
        (fun _ img => img) (fun _ img => img) (fun ins _ _ _ => ins)
        [[[F.fin 7]]] [[[F.fin 5]]] [[[F.fin 0]]] =
      Except.error np_min_empty_error :=
  ⟨by decide,
   claim_C1 ⟨false, some SharpenMode.gaussian_filter, true, false, true⟩
     (fun _ img => img) (fun _ img => img) (fun ins _ _ _ => ins)
     [[[F.fin 7]]] [[[F.fin 5]]] [[[F.fin 0]]] (by decide)⟩

/-! ### Claim C2 — the linear blend path -/

/-- Claim C2: with seamless_clone and draw_transparent disabled,
`apply_fixes` returns `rint(clip(S*mask + frame*(1-mask)))` per pixel per
channel, where `S` is the post-color-correction synthesized image; and on
same-shape finite data, a mask identically 1 makes the blend return `S`
exactly and a mask identically 0 makes it return `frame` exactly, so the
8-bit output is `rint(clip(S))` resp. `rint(clip(frame))`. -/
theorem claim_C2 (args : FixArgs)
    (filter2D : List (List ℚ) → Image → Image)
    (gaussianBlur : ℚ → Image → Image)
    (seamlessClone : Image → Image → Image → ℕ × ℕ → Image)
    (frame new_image image_mask S : Image) (h w ch : ℕ)
    (hdt : args.draw_transparent = false) (hsc : args.seamless_clone = false)
    (hS : S = post_correct args filter2D gaussianBlur frame image_mask new_image) :
    apply_fixes args filter2D gaussianBlur seamlessClone frame new_image image_mask =
      Except.ok (rintImg (clipImg 0 255 (linear_blend S frame image_mask))) ∧
    (Dims S h w ch → Dims frame h w ch → Dims image_mask h w ch →
      ((AllEntries (fun v => v = F.fin 1) image_mask → AllEntries IsFin frame →
          linear_blend S frame image_mask = S) ∧
       (AllEntries (fun v => v = F.fin 0) image_mask → AllEntries IsFin S →
          linear_blend S frame image_mask = frame))) := by
  constructor
  · subst hS
    simp [apply_fixes, hdt, hsc]
  · intro hdS hdF hdM
    have hdone : Dims (mapImg (fun m => subF (F.fin 1) m) image_mask) h w ch :=
      Dims_mapImg hdM
    constructor
    · intro hm1 hFf
      have hone0 : AllEntries (fun v => v = F.fin 0)
          (mapImg (fun m => subF (F.fin 1) m) image_mask) :=
        AllEntries_mapImg hm1 (fun x hx => by rw [hx, subF_fin]; norm_num)
      have hbg0 : AllEntries (fun v => v = F.fin 0)
          (ewMap2 mulF frame (mapImg (fun m => subF (F.fin 1) m) image_mask)) :=
        AllEntries_ewMap2 hFf hone0
          (fun x y hx hy => by rw [hy]; exact mulF_zero_right_of_fin hx)
      have hdbg : Dims (ewMap2 mulF frame (mapImg (fun m => subF (F.fin 1) m) image_mask))
          h w ch := Dims_ewMap2 hdF hdone
      have hfg : ewMap2 mulF S image_mask = S :=
        ewMap2_eq_left hdS hdM (fun x y _ hy => by
          rcases hy with ⟨row, hrow, p, hp, hyy⟩
          rw [hm1 row hrow p hp y hyy]
          exact mulF_one_right x)
      unfold linear_blend
      rw [hfg]
      exact ewMap2_eq_left hdS hdbg (fun x y _ hy => by
        rcases hy with ⟨row, hrow, p, hp, hyy⟩
        rw [hbg0 row hrow p hp y hyy]
        exact addF_zero_right x)
    · intro hm0 hSf
      have hone1 : AllEntries (fun v => v = F.fin 1)
          (mapImg (fun m => subF (F.fin 1) m) image_mask) :=
        AllEntries_mapImg hm0 (fun x hx => by rw [hx, subF_fin]; norm_num)
      have hfg0 : AllEntries (fun v => v = F.fin 0) (ewMap2 mulF S image_mask) :=
        AllEntries_ewMap2 hSf hm0
          (fun x y hx hy => by rw [hy]; exact mulF_zero_right_of_fin hx)
      have hdfg : Dims (ewMap2 mulF S image_mask) h w ch := Dims_ewMap2 hdS hdM
      have hbg_eq : ewMap2 mulF frame (mapImg (fun m => subF (F.fin 1) m) image_mask) =
          frame :=
        ewMap2_eq_left hdF hdone (fun x y _ hy => by
          rcases hy with ⟨row, hrow, p, hp, hyy⟩
          rw [hone1 row hrow p hp y hyy]
          exact mulF_one_right x)
      unfold linear_blend
      rw [hbg_eq]
      exact ewMap2_eq_right hdfg hdF (fun x y hx _ => by
        rcases hx with ⟨row, hrow, p, hp, hxx⟩
        rw [hfg0 row hrow p hp x hxx]
        exact addF_zero_left y)

unseal Rat.mul Rat.inv Rat.add Rat.sub in
/-- Witness for claim C2 at a concrete input (all corrections off, so the
post-correction synthesized image is `new_image` itself). -/
theorem claim_C2_witness :
    apply_fixes ⟨false, none, false, false, false⟩ (fun _ img => img) (fun _ img => img)
        (fun ins _ _ _ => ins) [[[F.fin 10]]] [[[F.fin 20]]] [[[F.fin 1]]] =
      Except.ok (rintImg (clipImg 0 255 (linear_blend
        (post_correct ⟨false, none, false, false, false⟩ (fun _ img => img)
          (fun _ img => img) [[[F.fin 10]]] [[[F.fin 1]]] [[[F.fin 20]]])
        [[[F.fin 10]]] [[[F.fin 1]]]))) ∧
    linear_blend
        (post_correct ⟨false, none, false, false, false⟩ (fun _ img => img)
          (fun _ img => img) [[[F.fin 10]]] [[[F.fin 1]]] [[[F.fin 20]]])
        [[[F.fin 10]]] [[[F.fin 1]]] =
      post_correct ⟨false, none, false, false, false⟩ (fun _ img => img)
        (fun _ img => img) [[[F.fin 10]]] [[[F.fin 1]]] [[[F.fin 20]]] := by
  have h := claim_C2 ⟨false, none, false, false, false⟩ (fun _ img => img)
    (fun _ img => img) (fun ins _ _ _ => ins) [[[F.fin 10]]] [[[F.fin 20]]]
    [[[F.fin 1]]]
    (post_correct ⟨false, none, false, false, false⟩ (fun _ img => img)
      (fun _ img => img) [[[F.fin 10]]] [[[F.fin 1]]] [[[F.fin 20]]])
    1 1 1 rfl rfl rfl
  exact ⟨h.1, (h.2 (by decide) (by decide) (by decide)).1 (by decide) (by decide)⟩

/-! ### Claim C10 — empty mask channel under the average-color adjustment -/

theorem ChanAll_ewMap2 {f : F → F → F} {P Q R : F → Prop} {a b : Image} {h w ch c : ℕ}
    (ha : Dims a h w ch) (hb : Dims b h w ch) (hc : c < ch)
    (hP : ChanAll a c P) (hQ : ChanAll b c Q)
    (hf : ∀ x y, P x → Q y → R (f x y)) : ChanAll (ewMap2 f a b) c R := by
  intro row hrow p hp
  rcases exists_of_mem_zipWith hrow with ⟨ra, hra, rb, hrb, hrz⟩
  subst hrz
  rcases exists_of_mem_zipWith hp with ⟨pa, hpa, pb, hpb, hpz⟩
  subst hpz
  rw [zipWith_getD f (by rw [ha.pix_length hra hpa]; exact hc)
      (by rw [hb.pix_length hrb hpb]; exact hc) (F.fin 0) (F.fin 0) (F.fin 0)]
  exact hf _ _ (hP ra hra pa hpa) (hQ rb hrb pb hpb)

theorem ChanAll_mapImg {g : F → F} {P Q : F → Prop} {a : Image} {h w ch c : ℕ}
    (ha : Dims a h w ch) (hc : c < ch)
    (hP : ChanAll a c P) (hg : ∀ x, P x → Q (g x)) : ChanAll (mapImg g a) c Q := by
  intro row hrow p hp
  simp only [mapImg, List.mem_map] at hrow
  rcases hrow with ⟨ra, hra, hrz⟩
  subst hrz
  simp only [List.mem_map] at hp
  rcases hp with ⟨pa, hpa, hpz⟩
  subst hpz
  rw [map_getD g (by rw [ha.pix_length hra hpa]; exact hc) (F.fin 0) (F.fin 0)]
  exact hg _ (hP ra hra pa hpa)

theorem ChanAll_trivial (a : Image) (c : ℕ) : ChanAll a c (fun _ => True) :=
  fun _ _ _ _ => trivial

theorem mem_getChannel {img : Image} {c : ℕ} {x : F} (hx : x ∈ getChannel img c) :
    ∃ row ∈ img, ∃ p ∈ row, x = p.getD c (F.fin 0) := by
  simp only [getChannel, List.mem_flatMap, List.mem_map] at hx
  rcases hx with ⟨row, hrow, p, hp, hval⟩
  exact ⟨row, hrow, p, hp, hval.symm⟩

theorem getChannel_all {img : Image} {c : ℕ} {P : F → Prop} (hP : ChanAll img c P) :
    ∀ x ∈ getChannel img c, P x := by
  intro x hx
  rcases mem_getChannel hx with ⟨row, hrow, p, hp, hval⟩
  rw [hval]
  exact hP row hrow p hp

theorem getChannel_ne_nil {img : Image} {h w ch : ℕ} (hd : Dims img h w ch)
    (hh : 0 < h) (hw : 0 < w) (c : ℕ) : getChannel img c ≠ [] := by
  cases img with
  | nil =>
      exfalso
      have := hd.1
      simp at this
      omega
  | cons row rest =>
      have hrw : row.length = w := hd.row_length (List.mem_cons_self _ _)
      cases row with
      | nil => simp at hrw; omega
      | cons p prest => simp [getChannel]

theorem numChannels_eq {img : Image} {h w ch : ℕ} (hd : Dims img h w ch)
    (hh : 0 < h) (hw : 0 < w) : numChannels img = ch := by
  cases img with
  | nil =>
      exfalso
      have := hd.1
      simp at this
      omega
  | cons row rest =>
      cases row with
      | nil =>
          exfalso
          have := hd.row_length (List.mem_cons_self _ _)
          simp at this
          omega
      | cons p prest =>
          have hp : p.length = ch :=
            hd.pix_length (List.mem_cons_self _ _) (List.mem_cons_self _ _)
          simpa [numChannels] using hp

theorem length_axisSum01 (img : Image) : (axisSum01 img).length = numChannels img := by
  simp [axisSum01]

theorem axisSum01_getD {img : Image} (c : ℕ) (hc : c < numChannels img) :
    (axisSum01 img).getD c (F.fin 0) = sumF (getChannel img c) := by
  unfold axisSum01
  exact range_map_getD _ hc (F.fin 0)

theorem Dims_addBroadcast {a : Image} {v : List F} {h w ch : ℕ} (ha : Dims a h w ch)
    (hv : v.length = ch) : Dims (addBroadcast a v) h w ch := by
  refine ⟨by simp [addBroadcast, ha.1], ?_⟩
  intro row hrow
  simp only [addBroadcast, List.mem_map] at hrow
  rcases hrow with ⟨ra, hra, hrz⟩
  subst hrz
  refine ⟨by simp [ha.row_length hra], ?_⟩
  intro p hp
  simp only [List.mem_map] at hp
  rcases hp with ⟨pa, hpa, hpz⟩
  subst hpz
  simp [ha.pix_length hra hpa, hv]

theorem ChanAll_addBroadcast_nan {a : Image} {v : List F} {h w ch c : ℕ}
    (ha : Dims a h w ch) (hc : c < ch) (hvlen : v.length = ch)
    (hvc : v.getD c (F.fin 0) = F.nan) :
    ChanAll (addBroadcast a v) c (fun x => x = F.nan) := by
  intro row hrow p hp
  simp only [addBroadcast, List.mem_map] at hrow
  rcases hrow with ⟨ra, hra, hrz⟩
  subst hrz
  simp only [List.mem_map] at hp
  rcases hp with ⟨pa, hpa, hpz⟩
  subst hpz
  rw [zipWith_getD addF (by rw [ha.pix_length hra hpa]; exact hc)
      (by rw [hvlen]; exact hc) (F.fin 0) (F.fin 0) (F.fin 0), hvc, addF_nan_right]

/-- The adjustment vector `avg_diff / np.sum(image_mask, axis=(0,1))` holds
NaN at a channel whose mask entries are all zero: the division is `0/0` (or
`NaN/0` in the second iteration). -/
theorem adjustment_getD_nan {X image_mask : Image} {h w ch c : ℕ}
    (hX : Dims X h w ch) (hM : Dims image_mask h w ch)
    (hh : 0 < h) (hw : 0 < w) (hc : c < ch)
    (hXc : sumF (getChannel X c) = F.nan ∨ sumF (getChannel X c) = F.fin 0)
    (hMc : ChanAll image_mask c (fun v => v = F.fin 0)) :
    (List.zipWith divF (axisSum01 X) (axisSum01 image_mask)).getD c (F.fin 0) =
      F.nan := by
  have h1 : c < (axisSum01 X).length := by
    rw [length_axisSum01, numChannels_eq hX hh hw]
    exact hc
  have h2 : c < (axisSum01 image_mask).length := by
    rw [length_axisSum01, numChannels_eq hM hh hw]
    exact hc
  rw [zipWith_getD divF h1 h2 (F.fin 0) (F.fin 0) (F.fin 0),
      axisSum01_getD c (by rw [numChannels_eq hX hh hw]; exact hc),
      axisSum01_getD c (by rw [numChannels_eq hM hh hw]; exact hc),
      sumF_eq_of_all_zero (getChannel_all hMc)]
  rcases hXc with hn | h0
  · rw [hn]
    exact divF_nan_left _
  · rw [h0]
    exact divF_zero_zero

theorem adjustment_length {X image_mask : Image} {h w ch : ℕ}
    (hX : Dims X h w ch) (hM : Dims image_mask h w ch) (hh : 0 < h) (hw : 0 < w) :
    (List.zipWith divF (axisSum01 X) (axisSum01 image_mask)).length = ch := by
  rw [List.length_zipWith, length_axisSum01, length_axisSum01,
      numChannels_eq hX hh hw, numChannels_eq hM hh hw, min_self]

theorem Dims_avg_color_once {frame image_mask masked : Image} {h w ch : ℕ}
    (hF : Dims frame h w ch) (hM : Dims image_mask h w ch) (hK : Dims masked h w ch)
    (hh : 0 < h) (hw : 0 < w) : Dims (avg_color_once frame image_mask masked) h w ch := by
  have hKc : Dims (clipImg 0 255 masked) h w ch := Dims_mapImg hK
  have hX : Dims (ewMap2 mulF (ewMap2 subF frame (clipImg 0 255 masked)) image_mask)
      h w ch := Dims_ewMap2 (Dims_ewMap2 hF hKc) hM
  exact Dims_addBroadcast hKc (adjustment_length hX hM hh hw)

/-- First iteration: with a finite frame and working image, an all-zero mask
channel receives the `0/0 = NaN` adjustment, so the whole channel of the
adjusted image becomes NaN. -/
theorem avg_color_once_chan_nan_of_fin {frame image_mask masked : Image} {h w ch c : ℕ}
    (hF : Dims frame h w ch) (hM : Dims image_mask h w ch) (hK : Dims masked h w ch)
    (hh : 0 < h) (hw : 0 < w) (hc : c < ch)
    (hFc : ChanAll frame c IsFin) (hKc : ChanAll masked c IsFin)
    (hMc : ChanAll image_mask c (fun v => v = F.fin 0)) :
    ChanAll (avg_color_once frame image_mask masked) c (fun x => x = F.nan) := by
  have hKcl : Dims (clipImg 0 255 masked) h w ch := Dims_mapImg hK
  have hKclc : ChanAll (clipImg 0 255 masked) c IsFin :=
    ChanAll_mapImg hK hc hKc (fun x hx => clipF_of_fin hx)
  have hdiffD : Dims (ewMap2 subF frame (clipImg 0 255 masked)) h w ch :=
    Dims_ewMap2 hF hKcl
  have hdiffc : ChanAll (ewMap2 subF frame (clipImg 0 255 masked)) c IsFin :=
    ChanAll_ewMap2 hF hKcl hc hFc hKclc (fun x y hx hy => subF_fin_of_fin hx hy)
  have hXD : Dims (ewMap2 mulF (ewMap2 subF frame (clipImg 0 255 masked)) image_mask)
      h w ch := Dims_ewMap2 hdiffD hM
  have hXc : ChanAll (ewMap2 mulF (ewMap2 subF frame (clipImg 0 255 masked)) image_mask)
      c (fun v => v = F.fin 0) :=
    ChanAll_ewMap2 hdiffD hM hc hdiffc hMc
      (fun x y hx hy => by rw [hy]; exact mulF_zero_right_of_fin hx)
  exact ChanAll_addBroadcast_nan hKcl hc (adjustment_length hXD hM hh hw)
    (adjustment_getD_nan hXD hM hh hw hc
      (Or.inr (sumF_eq_of_all_zero (getChannel_all hXc))) hMc)

/-- Second iteration: once the channel is NaN it stays NaN — the clip keeps
NaN, the difference and products stay NaN, the reduction is NaN, and
`NaN/0 = NaN` is broadcast back. -/
theorem avg_color_once_chan_nan_of_nan {frame image_mask masked : Image} {h w ch c : ℕ}
    (hF : Dims frame h w ch) (hM : Dims image_mask h w ch) (hK : Dims masked h w ch)
    (hh : 0 < h) (hw : 0 < w) (hc : c < ch)
    (hKn : ChanAll masked c (fun v => v = F.nan))
    (hMc : ChanAll image_mask c (fun v => v = F.fin 0)) :
    ChanAll (avg_color_once frame image_mask masked) c (fun x => x = F.nan) := by
  have hKcl : Dims (clipImg 0 255 masked) h w ch := Dims_mapImg hK
  have hKcln : ChanAll (clipImg 0 255 masked) c (fun v => v = F.nan) :=
    ChanAll_mapImg hK hc hKn (fun x hx => by rw [hx]; exact clipF_nan 0 255)
  have hdiffD : Dims (ewMap2 subF frame (clipImg 0 255 masked)) h w ch :=
    Dims_ewMap2 hF hKcl
  have hdiffn : ChanAll (ewMap2 subF frame (clipImg 0 255 masked)) c
      (fun v => v = F.nan) :=
    ChanAll_ewMap2 hF hKcl hc (ChanAll_trivial frame c) hKcln
      (fun x y _ hy => by rw [hy]; exact subF_nan_right x)
  have hXD : Dims (ewMap2 mulF (ewMap2 subF frame (clipImg 0 255 masked)) image_mask)
      h w ch := Dims_ewMap2 hdiffD hM
  have hXn : ChanAll (ewMap2 mulF (ewMap2 subF frame (clipImg 0 255 masked)) image_mask)
      c (fun v => v = F.nan) :=
    ChanAll_ewMap2 hdiffD hM hc hdiffn (ChanAll_trivial image_mask c)
      (fun x y hx _ => by rw [hx]; exact mulF_nan_left y)
  have hsum : sumF (getChannel
      (ewMap2 mulF (ewMap2 subF frame (clipImg 0 255 masked)) image_mask) c) = F.nan :=
    sumF_eq_nan_of_all_nan (getChannel_ne_nil hXD hh hw c) (getChannel_all hXn)
  exact ChanAll_addBroadcast_nan hKcl hc (adjustment_length hXD hM hh hw)
    (adjustment_getD_nan hXD hM hh hw hc (Or.inl hsum) hMc)

/-- Claim C10: with avg_color_adjust enabled (all other optional steps off),
a mask whose channel `c` has no nonzero pixel makes the per-channel
adjustment divide by zero (`0/0 = NaN`), and the NaN propagates through the
second iteration and the linear blend into every channel-`c` entry of the
blended 8-bit output — the empty-mask no-op guarantee of histogram matching
is not provided by the average-color path. -/
theorem claim_C10
    (filter2D : List (List ℚ) → Image → Image)
    (gaussianBlur : ℚ → Image → Image)
    (seamlessClone : Image → Image → Image → ℕ × ℕ → Image)
    (frame new_image image_mask : Image) (h w ch c : ℕ)
    (hF : Dims frame h w ch) (hN : Dims new_image h w ch)
    (hM : Dims image_mask h w ch)
    (hh : 0 < h) (hw : 0 < w) (hc : c < ch)
    (hFc : ChanAll frame c IsFin) (hNc : ChanAll new_image c IsFin)
    (hMc : ChanAll image_mask c (fun v => v = F.fin 0)) :
    apply_fixes ⟨false, none, true, false, false⟩ filter2D gaussianBlur seamlessClone
        frame new_image image_mask =
      Except.ok (rintImg (clipImg 0 255
        (linear_blend (avg_color_adjust frame image_mask new_image) frame image_mask))) ∧
    ChanAll (rintImg (clipImg 0 255
        (linear_blend (avg_color_adjust frame image_mask new_image) frame image_mask)))
      c (fun v => v = F.nan) := by
  constructor
  · rfl
  · have hA1 : ChanAll (avg_color_once frame image_mask new_image) c
        (fun v => v = F.nan) :=
      avg_color_once_chan_nan_of_fin hF hM hN hh hw hc hFc hNc hMc
    have hA1D : Dims (avg_color_once frame image_mask new_image) h w ch :=
      Dims_avg_color_once hF hM hN hh hw
    have hA : ChanAll (avg_color_adjust frame image_mask new_image) c
        (fun v => v = F.nan) :=
      avg_color_once_chan_nan_of_nan hF hM hA1D hh hw hc hA1 hMc
    have hAD : Dims (avg_color_adjust frame image_mask new_image) h w ch :=
      Dims_avg_color_once hF hM hA1D hh hw
    have hfgD : Dims (ewMap2 mulF (avg_color_adjust frame image_mask new_image)
        image_mask) h w ch := Dims_ewMap2 hAD hM
    have hfgn : ChanAll (ewMap2 mulF (avg_color_adjust frame image_mask new_image)
        image_mask) c (fun v => v = F.nan) :=
      ChanAll_ewMap2 hAD hM hc hA (ChanAll_trivial image_mask c)
        (fun x y hx _ => by rw [hx]; exact mulF_nan_left y)
    have honeD : Dims (mapImg (fun m => subF (F.fin 1) m) image_mask) h w ch :=
      Dims_mapImg hM
    have hbgD : Dims (ewMap2 mulF frame (mapImg (fun m => subF (F.fin 1) m) image_mask))
        h w ch := Dims_ewMap2 hF honeD
    have hbln : ChanAll (linear_blend (avg_color_adjust frame image_mask new_image)
        frame image_mask) c (fun v => v = F.nan) :=
      ChanAll_ewMap2 hfgD hbgD hc hfgn
        (ChanAll_trivial (ewMap2 mulF frame
          (mapImg (fun m => subF (F.fin 1) m) image_mask)) c)
        (fun x y hx _ => by rw [hx]; exact addF_nan_left y)
    have hblD : Dims (linear_blend (avg_color_adjust frame image_mask new_image)
        frame image_mask) h w ch := Dims_ewMap2 hfgD hbgD
    have hcln : ChanAll (clipImg 0 255
        (linear_blend (avg_color_adjust frame image_mask new_image) frame image_mask))
        c (fun v => v = F.nan) :=
      ChanAll_mapImg hblD hc hbln (fun x hx => by rw [hx]; exact clipF_nan 0 255)
    have hclD : Dims (clipImg 0 255
        (linear_blend (avg_color_adjust frame image_mask new_image) frame image_mask))
        h w ch := Dims_mapImg hblD
    exact ChanAll_mapImg hclD hc hcln (fun x hx => by rw [hx]; exact rintF_nan)

unseal Rat.mul Rat.inv Rat.add Rat.sub in
/-- Witness for claim C10 at a concrete input: a 1×1×1 frame/image pair with
an all-zero mask channel; the blended output is NaN. -/
theorem claim_C10_witness :
    Dims ([[[F.fin 10]]] : Image) 1 1 1 ∧
    apply_fixes ⟨false, none, true, false, false⟩ (fun _ img => img) (fun _ img => img)
        (fun ins _ _ _ => ins) [[[F.fin 10]]] [[[F.fin 20]]] [[[F.fin 0]]] =
      Except.ok (rintImg (clipImg 0 255
        (linear_blend (avg_color_adjust [[[F.fin 10]]] [[[F.fin 0]]] [[[F.fin 20]]])
          [[[F.fin 10]]] [[[F.fin 0]]]))) ∧
    ChanAll (rintImg (clipImg 0 255
        (linear_blend (avg_color_adjust [[[F.fin 10]]] [[[F.fin 0]]] [[[F.fin 20]]])
          [[[F.fin 10]]] [[[F.fin 0]]]))) 0 (fun v => v = F.nan) := by
  have h := claim_C10 (fun _ img => img) (fun _ img => img) (fun ins _ _ _ => ins)
    [[[F.fin 10]]] [[[F.fin 20]]] [[[F.fin 0]]] 1 1 1 0
    (by decide) (by decide) (by decide) (by decide) (by decide) (by decide)
    (by decide) (by decide) (by decide)
  exact ⟨by decide, h.1, h.2⟩

end Faceswap
